import Mathlib

/-!
Verification of the block-puzzle game engine (8×8 grid, polyomino
placement, line clearing, streak scoring, game-over detection).

The board is a list of rows; a cell holds `none` when empty and
`some color` when occupied by a block of that color tag.  Anchor
coordinates and shape offsets are integers, mirroring the JavaScript
number arithmetic of the source (`newRow = rowIndex + r`, with explicit
`>= 0` checks).

Functions translated from source files:
`canPlaceBoard`, `isRowFull`, `isColFull`, `flashRows`, `flashCells`
(GameBoard.tsx), `applyShape`, `computeTurnScore`, `handlePlaceShape`,
`checkGameOverStep`, `resetGame`, `placeShapeShared` (App).
The utility modules `utils/gameLogic` and `utils/shapeGenerator` are not
part of the sources at hand; `checkPlacement`, `clearLines`,
`checkGameOver` and `generateShapes` are modelled from the spec, as
marked on each definition.
-/

/-- One board cell: empty, or the color tag of the block occupying it. -/
abbrev Cell := Option String

/-- The board: a list of rows, each a list of cells. -/
abbrev Grid := List (List Cell)

/-- A placeable piece: relative block offsets plus a color tag
(source: `{ blocks: number[][], color: string }`). -/
structure Shape where
  blocks : List (Int × Int)
  color : String
deriving DecidableEq

instance : Inhabited Shape := ⟨⟨[], ""⟩⟩

/-- Read the cell at row `r`, column `c` (the JS access `grid[r][c]`,
used only at indexes already known to be in range). -/
def cellAt (g : Grid) (r c : Nat) : Cell :=
  (g.getD r []).getD c none

/-- The board has 8 rows of 8 cells each. -/
def dims8 (g : Grid) : Prop :=
  g.length = 8 ∧ ∀ row ∈ g, row.length = 8

instance (g : Grid) : Decidable (dims8 g) := by
  unfold dims8; infer_instance

/-- One step of the placement-validity scan of GameBoard.tsx: inside the
`selectedShape.blocks.forEach` body, `canPlace` is cleared when the
target cell is out of bounds or occupied (bounds from `grid.length` and
`grid[0].length`, as in the source). -/
def canPlaceStep (g : Grid) (hoverRow hoverCol : Int) (can : Bool) (p : Int × Int) : Bool :=
  let newRow := hoverRow + p.1
  let newCol := hoverCol + p.2
  if 0 ≤ newRow ∧ newRow < (g.length : Int) ∧ 0 ≤ newCol ∧ newCol < ((g.getD 0 []).length : Int) then
    if (cellAt g newRow.toNat newCol.toNat).isSome then false else can
  else false

/-- The placement-validity computation of GameBoard.tsx (the `canPlace`
accumulator of the hover-preview effect): start from `true` and fold the
scan step over the shape's blocks. -/
def canPlaceBoard (g : Grid) (s : Shape) (hoverRow hoverCol : Int) : Bool :=
  s.blocks.foldl (canPlaceStep g hoverRow hoverCol) true

/-- A target cell is acceptable: in bounds and empty. -/
def targetOk (g : Grid) (hoverRow hoverCol : Int) (p : Int × Int) : Bool :=
  decide (0 ≤ hoverRow + p.1 ∧ hoverRow + p.1 < (g.length : Int) ∧
          0 ≤ hoverCol + p.2 ∧ hoverCol + p.2 < ((g.getD 0 []).length : Int)) &&
  !(cellAt g (hoverRow + p.1).toNat (hoverCol + p.2).toNat).isSome

lemma canPlaceStep_eq_and (g : Grid) (hr hc : Int) (can : Bool) (p : Int × Int) :
    canPlaceStep g hr hc can p = (can && targetOk g hr hc p) := by
  unfold canPlaceStep targetOk
  by_cases hb : 0 ≤ hr + p.1 ∧ hr + p.1 < (g.length : Int) ∧
      0 ≤ hc + p.2 ∧ hc + p.2 < ((g.getD 0 []).length : Int)
  · rw [if_pos hb, decide_eq_true hb]
    by_cases ho : (cellAt g (hr + p.1).toNat (hc + p.2).toNat).isSome
    · rw [if_pos ho]; simp [ho]
    · rw [if_neg ho]
      have ho2 : (cellAt g (hr + p.1).toNat (hc + p.2).toNat).isSome = false := by
        simpa using ho
      simp [ho2]
  · rw [if_neg hb, decide_eq_false hb]; simp

lemma foldl_and_eq {α : Type} (p : α → Bool) (l : List α) (b : Bool) :
    l.foldl (fun acc x => acc && p x) b = (b && l.all p) := by
  induction l generalizing b with
  | nil => simp
  | cons a t ih => simp [List.foldl, ih, Bool.and_assoc]

lemma canPlaceBoard_eq_all (g : Grid) (s : Shape) (hr hc : Int) :
    canPlaceBoard g s hr hc = s.blocks.all (targetOk g hr hc) := by
  unfold canPlaceBoard
  have h : ∀ (l : List (Int × Int)) (b : Bool),
      l.foldl (canPlaceStep g hr hc) b = l.foldl (fun acc x => acc && targetOk g hr hc x) b := by
    intro l
    induction l with
    | nil => intro b; rfl
    | cons a t ih => intro b; simp [List.foldl, canPlaceStep_eq_and, ih]
  rw [h, foldl_and_eq]
  simp

lemma getD_zero_length_of_dims8 (g : Grid) (hg : dims8 g) :
    ((g.getD 0 []).length : Int) = 8 := by
  obtain ⟨h1, h2⟩ := hg
  cases g with
  | nil => simp at h1
  | cons a t =>
      have := h2 a (List.mem_cons_self a t)
      simp [List.getD, this]

/-- Claim C3: on an 8×8 board, the placement-validity computation of
GameBoard.tsx returns true iff every target cell
`(anchorRow + dr, anchorCol + dc)` over the shape's offsets is within
`[0,8) × [0,8)` and empty; a single out-of-bounds or occupied target
invalidates the whole placement. -/
theorem canPlaceBoard_true_iff (g : Grid) (s : Shape) (hoverRow hoverCol : Int)
    (hg : dims8 g) :
    canPlaceBoard g s hoverRow hoverCol = true ↔
      ∀ p ∈ s.blocks,
        0 ≤ hoverRow + p.1 ∧ hoverRow + p.1 < 8 ∧
        0 ≤ hoverCol + p.2 ∧ hoverCol + p.2 < 8 ∧
        cellAt g (hoverRow + p.1).toNat (hoverCol + p.2).toNat = none := by
  rw [canPlaceBoard_eq_all, List.all_eq_true]
  have hrow : (g.length : Int) = 8 := by exact_mod_cast hg.1
  have hcol : ((g.getD 0 []).length : Int) = 8 := getD_zero_length_of_dims8 g hg
  constructor
  · intro h p hp
    have := h p hp
    unfold targetOk at this
    rw [hrow, hcol] at this
    simp only [Bool.and_eq_true, decide_eq_true_eq, Bool.not_eq_true'] at this
    obtain ⟨⟨h1, h2, h3, h4⟩, h5⟩ := this
    exact ⟨h1, h2, h3, h4, Option.not_isSome_iff_eq_none.mp (by simp [h5])⟩
  · intro h p hp
    obtain ⟨h1, h2, h3, h4, h5⟩ := h p hp
    unfold targetOk
    rw [hrow, hcol]
    simp [h1, h2, h3, h4, h5]

/-- An empty 8×8 grid (source: `Array(8).fill(null).map(() => Array(8).fill(null))`). -/
def emptyGrid : Grid := List.replicate 8 (List.replicate 8 none)

/-- A single-block shape used as a concrete test piece. -/
def oneBlock : Shape := ⟨[(0, 0)], "blue"⟩

/-- Witness for claim C3: a single block placed at the origin of an
empty board is a valid placement, via the characterisation. -/
theorem canPlaceBoard_true_iff_witness :
    canPlaceBoard emptyGrid oneBlock 0 0 = true :=
  (canPlaceBoard_true_iff emptyGrid oneBlock 0 0 (by decide)).mpr (by decide)

/-- Write `v` into cell `(r, c)` of the board (the JS assignment
`newGrid[newRow][newCol] = shape.color`). -/
def setCell (g : Grid) (r c : Nat) (v : Cell) : Grid :=
  g.set r ((g.getD r []).set c v)

/-- One step of the placement write loop of `handlePlaceShape`
(source `shape.blocks.forEach`): the write happens only under the guard
`newRow >= 0 && newRow < GRID_SIZE && newCol >= 0 && newCol < GRID_SIZE`
with `GRID_SIZE = 8`. -/
def applyStep (color : String) (rowIndex colIndex : Int) (g : Grid) (p : Int × Int) : Grid :=
  let newRow := rowIndex + p.1
  let newCol := colIndex + p.2
  if 0 ≤ newRow ∧ newRow < 8 ∧ 0 ≤ newCol ∧ newCol < 8 then
    setCell g newRow.toNat newCol.toNat (some color)
  else g

/-- The placement write loop of `handlePlaceShape`: fold the guarded
write over the shape's blocks. -/
def applyShape (g : Grid) (s : Shape) (rowIndex colIndex : Int) : Grid :=
  s.blocks.foldl (applyStep s.color rowIndex colIndex) g

lemma getD_mem_of_lt (g : Grid) (r : Nat) (hr : r < g.length) : g.getD r [] ∈ g := by
  rw [List.getD_eq_getElem g [] hr]
  exact List.getElem_mem hr

lemma getD_length_of_dims8 (g : Grid) (hg : dims8 g) (r : Nat) (hr : r < 8) :
    (g.getD r []).length = 8 := by
  have hrl : r < g.length := by rw [hg.1]; omega
  exact hg.2 _ (getD_mem_of_lt g r hrl)

lemma dims8_setCell (g : Grid) (r c : Nat) (v : Cell) (hg : dims8 g) (hr : r < 8) :
    dims8 (setCell g r c v) := by
  obtain ⟨h1, h2⟩ := hg
  refine ⟨by simp [setCell, h1], ?_⟩
  intro row hrow
  rcases List.mem_or_eq_of_mem_set hrow with h | h
  · exact h2 row h
  · subst h
    rw [List.length_set]
    exact getD_length_of_dims8 g ⟨h1, h2⟩ r hr

lemma cellAt_setCell (g : Grid) (r c : Nat) (v : Cell)
    (hrl : r < g.length) (hcl : c < (g.getD r []).length) (i j : Nat) :
    cellAt (setCell g r c v) i j = if i = r ∧ j = c then v else cellAt g i j := by
  unfold cellAt setCell
  simp only [List.getD_eq_getElem?_getD] at hcl ⊢
  by_cases hi : i = r
  · subst hi
    rw [List.getElem?_set_self hrl, Option.getD_some]
    by_cases hj : j = c
    · subst hj
      rw [List.getElem?_set_self hcl, if_pos ⟨rfl, rfl⟩, Option.getD_some]
    · rw [List.getElem?_set_ne (show c ≠ j by omega), if_neg (by tauto)]
  · rw [List.getElem?_set_ne (show r ≠ i by omega), if_neg (by tauto)]

lemma dims8_applyStep (color : String) (ri ci : Int) (g : Grid) (p : Int × Int)
    (hg : dims8 g) : dims8 (applyStep color ri ci g p) := by
  unfold applyStep
  by_cases hb : 0 ≤ ri + p.1 ∧ ri + p.1 < 8 ∧ 0 ≤ ci + p.2 ∧ ci + p.2 < 8
  · rw [if_pos hb]
    exact dims8_setCell g _ _ _ hg (by omega)
  · rw [if_neg hb]; exact hg

lemma dims8_foldl_applyStep (color : String) (ri ci : Int) (l : List (Int × Int))
    (g : Grid) (hg : dims8 g) : dims8 (l.foldl (applyStep color ri ci) g) := by
  induction l generalizing g with
  | nil => exact hg
  | cons a t ih =>
      rw [List.foldl_cons]
      exact ih _ (dims8_applyStep color ri ci g a hg)

lemma cellAt_applyStep (color : String) (ri ci : Int) (g : Grid) (hg : dims8 g)
    (p : Int × Int) (r c : Nat) (hr : r < 8) (hc : c < 8) :
    cellAt (applyStep color ri ci g p) r c =
      if ri + p.1 = (r : Int) ∧ ci + p.2 = (c : Int) then some color else cellAt g r c := by
  unfold applyStep
  by_cases hb : 0 ≤ ri + p.1 ∧ ri + p.1 < 8 ∧ 0 ≤ ci + p.2 ∧ ci + p.2 < 8
  · rw [if_pos hb]
    have hrl : (ri + p.1).toNat < g.length := by rw [hg.1]; omega
    have hcl : (ci + p.2).toNat < (g.getD (ri + p.1).toNat []).length := by
      rw [getD_length_of_dims8 g hg _ (by omega)]; omega
    rw [cellAt_setCell g _ _ _ hrl hcl r c]
    by_cases hh : ri + p.1 = (r : Int) ∧ ci + p.2 = (c : Int)
    · rw [if_pos ⟨by omega, by omega⟩, if_pos hh]
    · rw [if_neg (by omega), if_neg hh]
  · rw [if_neg hb, if_neg (by omega)]

lemma cellAt_foldl_applyStep (color : String) (ri ci : Int) (l : List (Int × Int))
    (g : Grid) (hg : dims8 g) (r c : Nat) (hr : r < 8) (hc : c < 8) :
    cellAt (l.foldl (applyStep color ri ci) g) r c =
      if ∃ p ∈ l, ri + p.1 = (r : Int) ∧ ci + p.2 = (c : Int) then some color
      else cellAt g r c := by
  induction l generalizing g with
  | nil => simp
  | cons a t ih =>
      rw [List.foldl_cons, ih _ (dims8_applyStep color ri ci g a hg),
        cellAt_applyStep color ri ci g hg a r c hr hc]
      by_cases h1 : ∃ p ∈ t, ri + p.1 = (r : Int) ∧ ci + p.2 = (c : Int)
      · rw [if_pos h1, if_pos ?_]
        obtain ⟨p, hp, hpe⟩ := h1
        exact ⟨p, List.mem_cons_of_mem a hp, hpe⟩
      · by_cases h2 : ri + a.1 = (r : Int) ∧ ci + a.2 = (c : Int)
        · rw [if_neg h1, if_pos h2, if_pos ⟨a, List.mem_cons_self a t, h2⟩]
        · rw [if_neg h1, if_neg h2, if_neg ?_]
          rintro ⟨p, hp, hpe⟩
          rcases List.mem_cons.mp hp with h | h
          · exact h2 (h ▸ hpe)
          · exact h1 ⟨p, h, hpe⟩

/-- Claim C10: the placement write loop only writes inside the grid.
For every 8×8 board, shape, and anchor (including anchors sending some
target cells out of the grid), the result is still an 8×8 board, every
in-grid target cell holds the shape's color, and every other cell is
unchanged — each write is guarded by the bounds check, so no
out-of-bounds grid index is touched. -/
theorem applyShape_writes_in_bounds (g : Grid) (s : Shape) (rowIndex colIndex : Int)
    (hg : dims8 g) :
    dims8 (applyShape g s rowIndex colIndex) ∧
    ∀ r c : Nat, r < 8 → c < 8 →
      cellAt (applyShape g s rowIndex colIndex) r c =
        if ∃ p ∈ s.blocks, rowIndex + p.1 = (r : Int) ∧ colIndex + p.2 = (c : Int)
        then some s.color else cellAt g r c := by
  refine ⟨dims8_foldl_applyStep s.color rowIndex colIndex s.blocks g hg, ?_⟩
  intro r c hr hc
  exact cellAt_foldl_applyStep s.color rowIndex colIndex s.blocks g hg r c hr hc

/-- A two-block horizontal bar, used to exercise an anchor whose second
target cell falls outside the grid. -/
def twoBar : Shape := ⟨[(0, 0), (0, 1)], "red"⟩

/-- Witness for claim C10: placing the two-block bar at anchor `(7,7)`
sends its second block out of bounds; the board stays 8×8 and the
in-bounds corner cell receives the color. -/
theorem applyShape_writes_in_bounds_witness :
    dims8 (applyShape emptyGrid twoBar 7 7) ∧
    cellAt (applyShape emptyGrid twoBar 7 7) 7 7 = some "red" :=
  ⟨(applyShape_writes_in_bounds emptyGrid twoBar 7 7 (by decide)).1,
    by
      rw [(applyShape_writes_in_bounds emptyGrid twoBar 7 7 (by decide)).2 7 7
        (by decide) (by decide)]
      rw [if_pos ⟨(0, 0), by decide, by decide⟩]
      rfl⟩

/-- Row completeness as computed in GameBoard.tsx:
`grid[row].every(cell => cell !== null)`. -/
def isRowFull (g : Grid) (row : Nat) : Bool :=
  (g.getD row []).all (fun cell => cell.isSome)

/-- Column completeness as computed in GameBoard.tsx:
`Array.from({length: gridSize}, (_, row) => grid[row][col]).every(cell => cell !== null)`
with `gridSize = grid.length`. -/
def isColFull (g : Grid) (col : Nat) : Bool :=
  (List.range g.length).all (fun row => (cellAt g row col).isSome)

/-- The row scan of the flashing-cells effect: for each complete row,
push every cell of that row. -/
def flashRows (g : Grid) : List (Nat × Nat) :=
  (List.range g.length).foldl
    (fun acc row =>
      if isRowFull g row then acc ++ (List.range g.length).map (fun col => (row, col))
      else acc)
    []

/-- The guarded push of the column scan: the source pushes `{row, col}`
only when `!newFlashingCells.some(cell => cell.row === row && cell.col === col)`,
i.e. when the pair is not already in the accumulated list. -/
def pushNew (acc : List (Nat × Nat)) (x : Nat × Nat) : List (Nat × Nat) :=
  if x ∈ acc then acc else acc ++ [x]

/-- One column of the column scan of the flashing-cells effect. -/
def flashColsStep (g : Grid) (acc : List (Nat × Nat)) (col : Nat) : List (Nat × Nat) :=
  if isColFull g col then
    (List.range g.length).foldl (fun acc2 row => pushNew acc2 (row, col)) acc
  else acc

/-- The complete flashing-cells computation of GameBoard.tsx: scan the
rows, then the columns with the duplicate check. -/
def flashCells (g : Grid) : List (Nat × Nat) :=
  (List.range g.length).foldl (flashColsStep g) (flashRows g)

lemma foldl_rowStep_eq (g : Grid) (n : Nat) (l : List Nat) (init : List (Nat × Nat)) :
    l.foldl
      (fun acc row =>
        if isRowFull g row then acc ++ (List.range n).map (fun col => (row, col)) else acc)
      init
    = init ++ (l.filter (isRowFull g)).flatMap (fun row => (List.range n).map (fun col => (row, col))) := by
  induction l generalizing init with
  | nil => simp
  | cons a t ih =>
      rw [List.foldl_cons, List.filter_cons]
      by_cases h : isRowFull g a
      · simp only [h, if_true, ih, List.flatMap_cons, List.append_assoc]
      · simp only [h, Bool.false_eq_true, if_false, ih]

lemma nodup_row_blocks (l : List Nat) (hl : l.Nodup) (n : Nat) :
    (l.flatMap (fun row => (List.range n).map (fun col => (row, col)))).Nodup := by
  induction l with
  | nil => simp
  | cons a t ih =>
      rw [List.flatMap_cons, List.nodup_append]
      refine ⟨?_, ih (List.Nodup.of_cons hl), ?_⟩
      · exact (List.nodup_range n).map (fun c₁ c₂ h => by
          simpa using congrArg Prod.snd h)
      · intro x hx hx2
        simp only [List.mem_map, List.mem_range] at hx
        simp only [List.mem_flatMap, List.mem_map, List.mem_range] at hx2
        obtain ⟨c₁, _, rfl⟩ := hx
        obtain ⟨row, hrow, c₂, _, heq⟩ := hx2
        have : row = a := by simpa using congrArg Prod.fst heq
        exact (List.nodup_cons.mp hl).1 (this ▸ hrow)

lemma mem_flashRows (g : Grid) (x : Nat × Nat) :
    x ∈ flashRows g ↔ x.1 < g.length ∧ isRowFull g x.1 = true ∧ x.2 < g.length := by
  unfold flashRows
  rw [foldl_rowStep_eq]
  simp only [List.nil_append, List.mem_flatMap, List.mem_filter, List.mem_range, List.mem_map]
  constructor
  · rintro ⟨row, ⟨hrow, hfull⟩, col, hcol, rfl⟩
    exact ⟨hrow, hfull, hcol⟩
  · rintro ⟨h1, h2, h3⟩
    exact ⟨x.1, ⟨h1, h2⟩, x.2, h3, rfl⟩

lemma nodup_flashRows (g : Grid) : (flashRows g).Nodup := by
  unfold flashRows
  rw [foldl_rowStep_eq]
  rw [List.nil_append]
  exact nodup_row_blocks _ ((List.nodup_range _).filter _) _

lemma mem_pushNew (acc : List (Nat × Nat)) (a x : Nat × Nat) :
    x ∈ pushNew acc a ↔ x ∈ acc ∨ x = a := by
  unfold pushNew
  by_cases h : a ∈ acc
  · rw [if_pos h]
    constructor
    · exact Or.inl
    · rintro (hx | rfl)
      · exact hx
      · exact h
  · rw [if_neg h]
    simp

lemma nodup_pushNew (acc : List (Nat × Nat)) (a : Nat × Nat) (h : acc.Nodup) :
    (pushNew acc a).Nodup := by
  unfold pushNew
  by_cases ha : a ∈ acc
  · rw [if_pos ha]; exact h
  · rw [if_neg ha]
    rw [List.nodup_append]
    refine ⟨h, List.nodup_singleton a, fun x hx hx2 => ha ?_⟩
    have hxa : x = a := by simpa using hx2
    exact hxa ▸ hx

lemma mem_foldl_pushNew (l : List (Nat × Nat)) (acc : List (Nat × Nat)) (x : Nat × Nat) :
    x ∈ l.foldl pushNew acc ↔ x ∈ acc ∨ x ∈ l := by
  induction l generalizing acc with
  | nil => simp
  | cons a t ih =>
      rw [List.foldl_cons, ih, mem_pushNew]
      simp only [List.mem_cons]
      tauto

lemma nodup_foldl_pushNew (l : List (Nat × Nat)) (acc : List (Nat × Nat))
    (h : acc.Nodup) : (l.foldl pushNew acc).Nodup := by
  induction l generalizing acc with
  | nil => exact h
  | cons a t ih => exact ih _ (nodup_pushNew acc a h)

lemma mem_flashColsStep (g : Grid) (acc : List (Nat × Nat)) (col : Nat) (x : Nat × Nat) :
    x ∈ flashColsStep g acc col ↔
      x ∈ acc ∨ (isColFull g col = true ∧ x.1 < g.length ∧ x.2 = col) := by
  unfold flashColsStep
  by_cases h : isColFull g col
  · rw [if_pos h, ← List.foldl_map (fun row => (row, col)) pushNew, mem_foldl_pushNew]
    simp only [List.mem_map, List.mem_range, h, true_and]
    constructor
    · rintro (hx | ⟨row, hrow, rfl⟩)
      · exact Or.inl hx
      · exact Or.inr ⟨hrow, rfl⟩
    · rintro (hx | ⟨h1, h2⟩)
      · exact Or.inl hx
      · exact Or.inr ⟨x.1, h1, by rw [← h2]⟩
  · rw [if_neg h]
    simp [h]

lemma nodup_flashColsStep (g : Grid) (acc : List (Nat × Nat)) (col : Nat)
    (h : acc.Nodup) : (flashColsStep g acc col).Nodup := by
  unfold flashColsStep
  by_cases hc : isColFull g col
  · rw [if_pos hc, ← List.foldl_map (fun row => (row, col)) pushNew]
    exact nodup_foldl_pushNew _ _ h
  · rw [if_neg hc]; exact h

lemma mem_foldl_colsStep (g : Grid) (l : List Nat) (acc : List (Nat × Nat)) (x : Nat × Nat) :
    x ∈ l.foldl (flashColsStep g) acc ↔
      x ∈ acc ∨ ∃ col ∈ l, isColFull g col = true ∧ x.1 < g.length ∧ x.2 = col := by
  induction l generalizing acc with
  | nil => simp
  | cons a t ih =>
      rw [List.foldl_cons, ih, mem_flashColsStep]
      constructor
      · rintro ((hx | ⟨h1, h2, h3⟩) | ⟨col, hcol, hfull, h1, h2⟩)
        · exact Or.inl hx
        · exact Or.inr ⟨a, List.mem_cons_self a t, h1, h2, h3⟩
        · exact Or.inr ⟨col, List.mem_cons_of_mem a hcol, hfull, h1, h2⟩
      · rintro (hx | ⟨col, hcol, hfull, h1, h2⟩)
        · exact Or.inl (Or.inl hx)
        · rcases List.mem_cons.mp hcol with rfl | hcol2
          · exact Or.inl (Or.inr ⟨hfull, h1, h2⟩)
          · exact Or.inr ⟨col, hcol2, hfull, h1, h2⟩

lemma nodup_foldl_colsStep (g : Grid) (l : List Nat) (acc : List (Nat × Nat))
    (h : acc.Nodup) : (l.foldl (flashColsStep g) acc).Nodup := by
  induction l generalizing acc with
  | nil => exact h
  | cons a t ih => exact ih _ (nodup_flashColsStep g acc a h)

/-- Claim C6: on an 8×8 board, the completed-line cell collection of
GameBoard.tsx contains each cell at most once (no duplicates, so an
intersection cell of a complete row and a complete column appears
exactly once), and it contains exactly the cells lying on a complete
row or a complete column. -/
theorem flashCells_nodup_and_complete (g : Grid) (hg : g.length = 8) :
    (flashCells g).Nodup ∧
    ∀ r c : Nat,
      ((r, c) ∈ flashCells g ↔
        r < 8 ∧ c < 8 ∧ (isRowFull g r = true ∨ isColFull g c = true)) := by
  constructor
  · exact nodup_foldl_colsStep g _ _ (nodup_flashRows g)
  · intro r c
    unfold flashCells
    rw [mem_foldl_colsStep, mem_flashRows]
    simp only [hg, List.mem_range]
    constructor
    · rintro (⟨h1, h2, h3⟩ | ⟨col, hcol, hfull, h1, h2⟩)
      · exact ⟨h1, h3, Or.inl h2⟩
      · refine ⟨h1, ?_, Or.inr ?_⟩
        · simpa [h2] using hcol
        · simpa [h2] using hfull
    · rintro ⟨h1, h2, h3 | h3⟩
      · exact Or.inl ⟨h1, h3, h2⟩
      · exact Or.inr ⟨c, h2, h3, h1, rfl⟩

/-- A board whose row 0 and column 0 are fully occupied and nothing else. -/
def crossGrid : Grid :=
  List.replicate 8 (some "red") :: List.replicate 7 (some "red" :: List.replicate 7 none)

/-- Witness for claim C6: on the cross board, the flashing-cell list has
no duplicates and the intersection cell `(0,0)` is included. -/
theorem flashCells_nodup_and_complete_witness :
    (flashCells crossGrid).Nodup ∧
    ((0, 0) ∈ flashCells crossGrid ↔
      0 < 8 ∧ 0 < 8 ∧ (isRowFull crossGrid 0 = true ∨ isColFull crossGrid 0 = true)) :=
  ⟨(flashCells_nodup_and_complete crossGrid rfl).1,
   (flashCells_nodup_and_complete crossGrid rfl).2 0 0⟩

/-- Modelled from the spec: `canPlace` of the missing `utils/gameLogic`
module (§4.2): a placement is legal iff every target cell
`(anchorRow + dr, anchorCol + dc)` satisfies `0 ≤ row < 8`,
`0 ≤ col < 8`, and the board cell there is empty. -/
def checkPlacement (g : Grid) (s : Shape) (row col : Int) : Bool :=
  s.blocks.all (fun p =>
    decide (0 ≤ row + p.1 ∧ row + p.1 < 8 ∧ 0 ≤ col + p.2 ∧ col + p.2 < 8) &&
    (cellAt g (row + p.1).toNat (col + p.2).toNat).isNone)

/-- A row is complete iff every one of its 8 cells is non-empty (spec §4.3). -/
def rowComplete (g : Grid) (r : Nat) : Bool :=
  (List.range 8).all (fun c => (cellAt g r c).isSome)

/-- A column is complete iff every one of its 8 cells is non-empty (spec §4.3). -/
def colComplete (g : Grid) (c : Nat) : Bool :=
  (List.range 8).all (fun r => (cellAt g r c).isSome)

/-- Result of the line-clear pass: new board, number of cleared lines,
and the deduplicated cleared cell positions. -/
structure ClearResult where
  updatedGrid : Grid
  clearedLines : Nat
  clearedPositions : List (Nat × Nat)

/-- Modelled from the spec: `clearLines` of the missing
`utils/gameLogic` module (§4.3): every cell on a complete row or a
complete column is reset to empty; `clearedLines` counts complete rows
plus complete columns; the position set has no duplicates. -/
def clearLines (g : Grid) : ClearResult :=
  let rows := (List.range 8).filter (rowComplete g)
  let cols := (List.range 8).filter (colComplete g)
  { updatedGrid :=
      (List.range 8).map (fun r =>
        (List.range 8).map (fun c =>
          if rowComplete g r || colComplete g c then none else cellAt g r c)),
    clearedLines := rows.length + cols.length,
    clearedPositions :=
      (rows.flatMap (fun r => (List.range 8).map (fun c => (r, c))) ++
       cols.flatMap (fun c => (List.range 8).map (fun r => (r, c)))).dedup }

/-- The fixed shape catalog (spec §3: straight lines, squares, L-shapes
and similar small polyominoes, each with a color tag). -/
def catalog : List Shape :=
  [⟨[(0, 0)], "red"⟩,
   ⟨[(0, 0), (0, 1)], "blue"⟩,
   ⟨[(0, 0), (0, 1), (0, 2)], "green"⟩,
   ⟨[(0, 0), (1, 0)], "yellow"⟩,
   ⟨[(0, 0), (0, 1), (1, 0), (1, 1)], "purple"⟩,
   ⟨[(0, 0), (1, 0), (1, 1)], "orange"⟩]

/-- Modelled from the spec: `generateShapes` of the missing
`utils/shapeGenerator` module (§4.1): `count` shapes drawn from the
fixed catalog. The random draw is replaced by a deterministic one; the
claims settled here depend only on the size of the produced batch. -/
def generateShapes (count : Nat) : List Shape :=
  (List.range count).map (fun i => catalog.getD (i % catalog.length) ⟨[(0, 0)], "red"⟩)

lemma length_generateShapes (n : Nat) : (generateShapes n).length = n := by
  simp [generateShapes]

/-- Modelled from the spec: `checkGameOver` of the missing
`utils/gameLogic` module (§4.5): true iff for every available piece and
every anchor in the 8×8 grid, `canPlace` is false. -/
def checkGameOver (g : Grid) (pieces : List Shape) : Bool :=
  pieces.all (fun s =>
    (List.range 8).all (fun r =>
      (List.range 8).all (fun c => !(checkPlacement g s (r : Int) (c : Int)))))

/-- The turn scoring of `handlePlaceShape` (source lines computing
`placementPoints`, `linePoints` and `newStreak`): total points awarded
and the new streak, as a function of the placed block count, the cleared
line count, and the previous streak. -/
def computeTurnScore (blockCount clearedLines : Nat) (streak : Int) : Int × Int :=
  let placementPoints : Int := (blockCount : Int) * 10
  if clearedLines > 0 then
    let newStreak := streak + 1
    let streakBonus := (newStreak - 1) * 10
    let linePoints := (clearedLines : Int) * (100 + streakBonus)
    (placementPoints + linePoints, newStreak)
  else
    (placementPoints, 0)

/-- The authoritative game state of the `App` component. -/
structure GameState where
  grid : Grid
  score : Int
  streak : Int
  availableShapes : List Shape
  selectedShape : Option Nat
  gameOver : Bool
  highScore : Int
deriving DecidableEq

/-- The `handlePlaceShape` click handler of App: no-op when nothing is
selected, the game is over, or the placement fails validation; otherwise
place the shape, clear lines, score the turn, consume the selected
piece, and replenish the whole batch when it runs out. -/
def handlePlaceShape (st : GameState) (rowIndex colIndex : Int) : GameState :=
  match st.selectedShape with
  | none => st
  | some sel =>
      if st.gameOver then st
      else
        let shape := st.availableShapes.getD sel default
        if checkPlacement st.grid shape rowIndex colIndex then
          let newGrid := applyShape st.grid shape rowIndex colIndex
          let res := clearLines newGrid
          let scored := computeTurnScore shape.blocks.length res.clearedLines st.streak
          let trimmed := st.availableShapes.eraseIdx sel
          { st with
            grid := res.updatedGrid
            score := st.score + scored.1
            streak := scored.2
            availableShapes := if trimmed.isEmpty then generateShapes 3 else trimmed
            selectedShape := none }
        else st

/-- The game-over effect of App: only when the available set is
non-empty and the game is not already over, run `checkGameOver`; on a
positive answer set game over and raise the high score if the current
score exceeds it. -/
def checkGameOverStep (st : GameState) : GameState :=
  if st.availableShapes.length > 0 && !st.gameOver then
    if checkGameOver st.grid st.availableShapes then
      { st with
        gameOver := true
        highScore := if st.score > st.highScore then st.score else st.highScore }
    else st
  else st

/-- The `resetGame` function of App: fresh empty board, zero score and
streak, a fresh batch of 3 shapes, nothing selected, game running. -/
def resetGame (st : GameState) : GameState :=
  { st with
    grid := emptyGrid
    score := 0
    streak := 0
    availableShapes := generateShapes 3
    selectedShape := none
    gameOver := false }

/-- Claim C2: the turn scoring awards `blockCount × 10` unconditionally;
with `clearedLines > 0` the streak becomes `previous + 1` and the line
points are `clearedLines × (100 + (newStreak − 1) × 10)`; with zero
cleared lines the streak resets to 0 and no line points are awarded; the
total is placement points plus line points. -/
theorem computeTurnScore_spec (b c : Nat) (s : Int) :
    (0 < c →
      computeTurnScore b c s =
        ((b : Int) * 10 + (c : Int) * (100 + ((s + 1) - 1) * 10), s + 1)) ∧
    (c = 0 → computeTurnScore b c s = ((b : Int) * 10 + 0, 0)) ∧
    (computeTurnScore b c s).1 =
      (b : Int) * 10 +
        (if 0 < c then (c : Int) * (100 + ((s + 1) - 1) * 10) else 0) := by
  unfold computeTurnScore
  by_cases hc : c > 0
  · simp [hc]
    omega
  · have hc0 : c = 0 := by omega
    subst hc0
    simp

/-- Witness for claim C2, matching the spec's worked example: a 4-block
piece at previous streak 2 clearing 1 line scores 40 placement points
plus 120 line points, and the streak becomes 3. -/
theorem computeTurnScore_spec_witness :
    computeTurnScore 4 1 2 =
      ((4 : Int) * 10 + (1 : Int) * (100 + (((2 : Int) + 1) - 1) * 10), (2 : Int) + 1) :=
  (computeTurnScore_spec 4 1 2).1 (by decide)

/-- Claim C4: a click is a no-op on the whole state when no shape is
selected, the game is over, or the placement fails validation — the
board, score, streak, piece set and status are all unchanged. -/
theorem handlePlaceShape_noop (st : GameState) (r c : Int)
    (h : st.selectedShape = none ∨ st.gameOver = true ∨
      ∃ sel, st.selectedShape = some sel ∧
        checkPlacement st.grid (st.availableShapes.getD sel default) r c = false) :
    handlePlaceShape st r c = st := by
  unfold handlePlaceShape
  rcases h with h | h | ⟨sel, hsel, hcp⟩
  · rw [h]
  · cases hs : st.selectedShape with
    | none => rfl
    | some sel => simp [h]
  · rw [hsel]
    by_cases hg : st.gameOver
    · simp [hg]
    · have hcp2 : checkPlacement st.grid (st.availableShapes[sel]?.getD default) r c = false := by
        rw [← List.getD_eq_getElem?_getD]
        exact hcp
      simp [hg, hcp2]

/-- A fully occupied 8×8 board. -/
def fullGrid : Grid := List.replicate 8 (List.replicate 8 (some "red"))

/-- A state where a piece is selected but the board is full, so any
placement is rejected. -/
def stBlocked : GameState :=
  ⟨fullGrid, 0, 0, [oneBlock], some 0, false, 0⟩

/-- Witness for claim C4: clicking the origin with the board full leaves
the state untouched. -/
theorem handlePlaceShape_noop_witness : handlePlaceShape stBlocked 0 0 = stBlocked :=
  handlePlaceShape_noop stBlocked 0 0 (Or.inr (Or.inr ⟨0, rfl, by decide⟩))

lemma handlePlaceShape_success_avail (st : GameState) (r c : Int) (sel : Nat)
    (h1 : st.selectedShape = some sel) (h2 : st.gameOver = false)
    (h3 : checkPlacement st.grid (st.availableShapes.getD sel default) r c = true) :
    (handlePlaceShape st r c).availableShapes =
      (if (st.availableShapes.eraseIdx sel).isEmpty then generateShapes 3
       else st.availableShapes.eraseIdx sel) := by
  unfold handlePlaceShape
  rw [h1]
  have h3' : checkPlacement st.grid (st.availableShapes[sel]?.getD default) r c = true := by
    rw [← List.getD_eq_getElem?_getD]; exact h3
  simp [h2, h3']

/-- Claim C5: a successful placement removes exactly the selected piece
(the others keep their relative order, being the prefix before and the
suffix after it); if the set becomes empty it is replenished as a whole
batch of exactly 3 generated shapes; hence the resulting set size is the
old size minus one, or 3. -/
theorem handlePlaceShape_consumes (st : GameState) (r c : Int) (sel : Nat)
    (h1 : st.selectedShape = some sel) (h2 : st.gameOver = false)
    (h3 : checkPlacement st.grid (st.availableShapes.getD sel default) r c = true) :
    (handlePlaceShape st r c).availableShapes =
      (if (st.availableShapes.eraseIdx sel).isEmpty then generateShapes 3
       else st.availableShapes.eraseIdx sel) ∧
    st.availableShapes.eraseIdx sel =
      st.availableShapes.take sel ++ st.availableShapes.drop (sel + 1) ∧
    (generateShapes 3).length = 3 ∧
    (sel < st.availableShapes.length →
      (handlePlaceShape st r c).availableShapes.length = st.availableShapes.length - 1 ∨
      (handlePlaceShape st r c).availableShapes.length = 3) := by
  have hmain := handlePlaceShape_success_avail st r c sel h1 h2 h3
  refine ⟨hmain, List.eraseIdx_eq_take_drop_succ st.availableShapes sel,
    length_generateShapes 3, ?_⟩
  intro hlen
  rw [hmain]
  by_cases he : (st.availableShapes.eraseIdx sel).isEmpty
  · right; rw [if_pos he]; exact length_generateShapes 3
  · left; rw [if_neg he]; exact List.length_eraseIdx_of_lt hlen

/-- A ready-to-play state: empty board, two pieces, the first selected. -/
def stReady : GameState :=
  ⟨emptyGrid, 0, 0, [oneBlock, twoBar], some 0, false, 0⟩

/-- Witness for claim C5: placing the selected piece of `stReady` leaves
exactly the other piece in the set. -/
theorem handlePlaceShape_consumes_witness :
    (handlePlaceShape stReady 0 0).availableShapes =
      (if (stReady.availableShapes.eraseIdx 0).isEmpty then generateShapes 3
       else stReady.availableShapes.eraseIdx 0) :=
  (handlePlaceShape_consumes stReady 0 0 0 rfl rfl (by decide)).1

lemma handlePlaceShape_gameplay_cases (st : GameState) (r c : Int) :
    handlePlaceShape st r c = st ∨
    ∃ b cl : Nat,
      (handlePlaceShape st r c).score = st.score + (computeTurnScore b cl st.streak).1 ∧
      (handlePlaceShape st r c).streak = (computeTurnScore b cl st.streak).2 ∧
      (handlePlaceShape st r c).highScore = st.highScore := by
  unfold handlePlaceShape
  cases hs : st.selectedShape with
  | none => exact Or.inl rfl
  | some sel =>
      by_cases hg : st.gameOver
      · left; simp [hg]
      · by_cases hcp : checkPlacement st.grid (st.availableShapes[sel]?.getD default) r c = true
        · right
          refine ⟨(st.availableShapes[sel]?.getD default).blocks.length,
            (clearLines (applyShape st.grid (st.availableShapes[sel]?.getD default) r c)).clearedLines,
            ?_, ?_, ?_⟩ <;> simp [hg, hcp]
        · left; simp [hg, hcp]

/-- Claim C7: the high score changes only on the transition to game
over, and there it is raised to the score exactly when the score
strictly exceeds it; placements, resets and steps that stay in the same
status leave the high score unchanged. -/
theorem highScore_gameplay (st : GameState) (r c : Int) :
    (handlePlaceShape st r c).highScore = st.highScore ∧
    (resetGame st).highScore = st.highScore ∧
    ((checkGameOverStep st).gameOver = st.gameOver →
      (checkGameOverStep st).highScore = st.highScore) ∧
    (st.gameOver = false → (checkGameOverStep st).gameOver = true →
      (checkGameOverStep st).highScore =
        (if st.score > st.highScore then st.score else st.highScore)) := by
  refine ⟨?_, rfl, ?_, ?_⟩
  · rcases handlePlaceShape_gameplay_cases st r c with h | ⟨b, cl, _, _, h⟩
    · rw [h]
    · exact h
  · unfold checkGameOverStep
    by_cases h1 : st.availableShapes.length > 0 && !st.gameOver
    · rw [if_pos h1]
      by_cases h2 : checkGameOver st.grid st.availableShapes
      · rw [if_pos h2]
        intro h3
        exfalso
        simp only [Bool.and_eq_true, Bool.not_eq_true', decide_eq_true_eq] at h1
        rw [h1.2] at h3
        simp at h3
      · rw [if_neg h2]; intro _; rfl
    · rw [if_neg h1]; intro _; rfl
  · intro hg h2
    unfold checkGameOverStep at h2 ⊢
    by_cases h1 : st.availableShapes.length > 0 && !st.gameOver
    · rw [if_pos h1] at h2 ⊢
      by_cases h3 : checkGameOver st.grid st.availableShapes
      · rw [if_pos h3]
      · rw [if_neg h3] at h2
        rw [hg] at h2
        exact absurd h2 Bool.false_ne_true
    · rw [if_neg h1] at h2
      rw [hg] at h2
      exact absurd h2 Bool.false_ne_true

/-- A playing state with a full board, one piece left, and a score
above the stored high score. -/
def stAboutToEnd : GameState :=
  ⟨fullGrid, 5, 0, [oneBlock], none, false, 3⟩

/-- Witness for claim C7: the game-over step on the full board raises
the high score according to the comparison with the score. -/
theorem highScore_gameplay_witness :
    (checkGameOverStep stAboutToEnd).highScore =
      (if stAboutToEnd.score > stAboutToEnd.highScore then stAboutToEnd.score
       else stAboutToEnd.highScore) :=
  (highScore_gameplay stAboutToEnd 0 0).2.2.2 rfl (by decide)

lemma computeTurnScore_nonneg (b cl : Nat) (s : Int) (hs : 0 ≤ s) :
    0 ≤ (computeTurnScore b cl s).1 ∧ 0 ≤ (computeTurnScore b cl s).2 := by
  unfold computeTurnScore
  by_cases hc : cl > 0
  · simp only [hc, if_true]
    constructor
    · have hb : (0 : Int) ≤ (b : Int) * 10 := by positivity
      have hl : (0 : Int) ≤ (cl : Int) * (100 + (s + 1 - 1) * 10) := by
        apply mul_nonneg (by positivity)
        linarith
      linarith
    · linarith
  · rw [if_neg hc]
    constructor
    · positivity
    · exact le_refl 0

/-- Claim C8: within a game (streak non-negative) every placement adds a
non-negative point delta, so the score never decreases and stays
non-negative, and the streak invariant is preserved; a new game resets
the score (and streak) to 0. -/
theorem score_monotone (st : GameState) (r c : Int) (h : 0 ≤ st.streak) :
    st.score ≤ (handlePlaceShape st r c).score ∧
    0 ≤ (handlePlaceShape st r c).streak ∧
    (0 ≤ st.score → 0 ≤ (handlePlaceShape st r c).score) ∧
    (resetGame st).score = 0 ∧ (resetGame st).streak = 0 := by
  rcases handlePlaceShape_gameplay_cases st r c with heq | ⟨b, cl, hsc, hstr, _⟩
  · rw [heq]
    exact ⟨le_refl _, h, fun hx => hx, rfl, rfl⟩
  · have hk := computeTurnScore_nonneg b cl st.streak h
    rw [hsc, hstr]
    exact ⟨by linarith [hk.1], hk.2, fun hx => by linarith [hk.1], rfl, rfl⟩

/-- Witness for claim C8: placing from `stReady` does not decrease the
score. -/
theorem score_monotone_witness :
    stReady.score ≤ (handlePlaceShape stReady 0 0).score :=
  (score_monotone stReady 0 0 (by decide)).1

/-- Claim C9: the game-over effect does nothing while the piece set is
empty; a placement never leaves the piece set empty (whole-batch
replenishment); hence a transition to game over is always decided
against a non-empty piece set, on which `checkGameOver` answered true. -/
theorem gameover_waits_for_batch (st : GameState) (r c : Int) :
    (st.availableShapes = [] → checkGameOverStep st = st) ∧
    (st.availableShapes ≠ [] → (handlePlaceShape st r c).availableShapes ≠ []) ∧
    (st.gameOver = false → (checkGameOverStep st).gameOver = true →
      st.availableShapes ≠ [] ∧ checkGameOver st.grid st.availableShapes = true) := by
  refine ⟨?_, ?_, ?_⟩
  · intro h
    unfold checkGameOverStep
    rw [h]
    simp
  · intro h
    unfold handlePlaceShape
    cases hs : st.selectedShape with
    | none => exact h
    | some sel =>
        by_cases hg : st.gameOver
        · simp only [hg, if_true]
          exact h
        · by_cases hcp : checkPlacement st.grid (st.availableShapes.getD sel default) r c = true
          · simp only [hg, Bool.false_eq_true, if_false, hcp, if_true]
            by_cases he : (st.availableShapes.eraseIdx sel).isEmpty
            · rw [if_pos he]
              decide
            · rw [if_neg he]
              intro hnil
              rw [hnil] at he
              exact he rfl
          · simp only [hg, Bool.false_eq_true, if_false, hcp, if_true]
            exact h
  · intro h1 h2
    unfold checkGameOverStep at h2
    by_cases hg1 : st.availableShapes.length > 0 && !st.gameOver
    · rw [if_pos hg1] at h2
      by_cases hco : checkGameOver st.grid st.availableShapes
      · refine ⟨?_, hco⟩
        simp only [Bool.and_eq_true, decide_eq_true_eq] at hg1
        intro hnil
        rw [hnil] at hg1
        simp at hg1
      · rw [if_neg hco] at h2
        rw [h1] at h2
        exact absurd h2 Bool.false_ne_true
    · rw [if_neg hg1] at h2
      rw [h1] at h2
      exact absurd h2 Bool.false_ne_true

/-- A playing state with an empty piece set. -/
def stEmptyBatch : GameState :=
  ⟨emptyGrid, 0, 0, [], none, false, 0⟩

/-- Witness for claim C9: with an empty piece set, the game-over effect
leaves the state untouched. -/
theorem gameover_waits_for_batch_witness :
    checkGameOverStep stEmptyBatch = stEmptyBatch :=
  (gameover_waits_for_batch stEmptyBatch 0 0).1 rfl

/-- The store of row arrays, indexed by row reference. JS arrays are
reference values: `const newGrid = [...grid]` copies the list of row
references but not the rows themselves, so the board value before the
placement and the board value after it share the same row arrays. -/
abbrev RowStore := List (List Cell)

/-- Read cell `(r, c)` of the board given by the row references `refs`
against the store. -/
def readCell (store : RowStore) (refs : List Nat) (r c : Nat) : Cell :=
  (store.getD (refs.getD r 0) []).getD c none

/-- The board value obtained by dereferencing the row references. -/
def derefGrid (store : RowStore) (refs : List Nat) : Grid :=
  refs.map (fun i => store.getD i [])

/-- The placement write loop of `handlePlaceShape` at the level of the
row store: `newGrid[newRow][newCol] = shape.color` resolves `newRow`
through the spread-copied reference list (identical to the input
board's) and writes into the referenced row array in the store. -/
def placeShapeShared (store : RowStore) (refs : List Nat) (s : Shape)
    (rowIndex colIndex : Int) : RowStore :=
  s.blocks.foldl
    (fun st p =>
      let newRow := rowIndex + p.1
      let newCol := colIndex + p.2
      if 0 ≤ newRow ∧ newRow < 8 ∧ 0 ≤ newCol ∧ newCol < 8 then
        let rowRef := refs.getD newRow.toNat 0
        st.set rowRef ((st.getD rowRef []).set newCol.toNat (some s.color))
      else st)
    store

/-- The initial store: 8 empty row arrays. -/
def startStore : RowStore := List.replicate 8 (List.replicate 8 none)

/-- The initial board: row `i` references store slot `i`. -/
def startRefs : List Nat := List.range 8

/-- Claim C1 fails on the code: for the valid placement of a one-block
shape at the origin of the empty board, running the placement write loop
changes what the INPUT board's references read — cell `(0,0)` of the
original board goes from empty to the shape's color, because the spread
copy `[...grid]` shares the row arrays between the input and the new
board. The claim's assertion that the input board's cells are all
unchanged is refuted at this input. -/
theorem placeShape_mutates_input :
    checkPlacement (derefGrid startStore startRefs) oneBlock 0 0 = true ∧
    readCell startStore startRefs 0 0 = none ∧
    readCell (placeShapeShared startStore startRefs oneBlock 0 0) startRefs 0 0 =
      some "blue" := by
  refine ⟨by decide, rfl, by decide⟩
